import Mathlib

/-!
Verification of the `cextrema` local-extrema scanner (`src/cextrema.c`).

Modelling choices (shallow embedding of the C routine):

* Grid samples are C `float`s.  Only order comparisons (`>`/`<`) of samples are
  performed by the routine, so samples are modelled by `Int`, a linear order
  faithfully representing every non-NaN float ordering.
* `size_t` loop bounds are modelled by `Nat`.  The C expression `imax - 1` is
  `size_t` subtraction; for `imax ≥ 1` it agrees with truncated `Nat`
  subtraction used here.  (For `imax = 0` the C program would wrap around and
  read far out of bounds; every claim below constrains the dimensions away
  from that case or is settled on concrete inputs.)
* All array accesses are checked: reads use `Array.getElem?` and writes use
  `setChecked`, so the whole scan returns `Option ScanState`, `none` marking
  an out-of-bounds access.
* The C source's minima branch uses a variable `min_index` that is never
  declared or initialised anywhere in the file (the maxima branch uses the
  reference parameter `maxima_length` instead).  It is modelled as an extra
  state component whose initial value `min_index₀` is a parameter of the
  embedding, representing the indeterminate value such a variable would hold.
  The reference out-parameter `minima_length` is set to 0 and, exactly as in
  the source, never incremented.
-/

namespace Stormtracks

/-- The caller-owned output buffers of `cextrema`, together with the two count
out-parameters (`maxima_length`, `minima_length`) and the undeclared minima
index variable `min_index` used by the source. -/
structure ScanState where
  extrema : Array Int
  maxima_x : Array Nat
  maxima_y : Array Nat
  minima_x : Array Nat
  minima_y : Array Nat
  maxima_length : Nat
  minima_length : Nat
  min_index : Nat
deriving DecidableEq, Repr

/-- Checked array write: `a[n] = v` when `n` is in bounds, `none` otherwise. -/
def setChecked {α : Type} (a : Array α) (n : Nat) (v : α) : Option (Array α) :=
  if h : n < a.size then some (a.set ⟨n, h⟩ v) else none

/-- One iteration of the inner 3×3 neighborhood loop body:
reads `data[inner_i * jmax + inner_j]` and updates the `(is_max, is_min)`
flags exactly as the two `if` statements in the source do. -/
def neighborStep (data : Array Int) (jmax : Nat) (data_val : Int)
    (fl : Bool × Bool) (inner_i inner_j : Nat) : Option (Bool × Bool) := do
  let v ← data[inner_i * jmax + inner_j]?
  pure (if v > data_val then false else fl.1,
        if v < data_val then false else fl.2)

/-- The two nested neighborhood loops
`for (inner_i = i-1; inner_i < i+2; ++inner_i) for (inner_j = j-1; ...)`,
started from `is_max = true`, `is_min = true`. -/
def neighborhoodFlags (data : Array Int) (jmax i j : Nat) (data_val : Int) :
    Option (Bool × Bool) :=
  (List.range' (i - 1) 3).foldlM (fun fl inner_i =>
    (List.range' (j - 1) 3).foldlM (fun fl2 inner_j =>
      neighborStep data jmax data_val fl2 inner_i inner_j) fl) (true, true)

/-- The body of the outer double loop for one interior cell `(i, j)`:
classify the cell and update map, lists and counters as the source does.
Note the asymmetry of the source: the maxima branch writes `extrema` before
checking capacity, the minima branch writes it only under the capacity check
(guarded by the undeclared `min_index`). -/
def cellStep (data : Array Int) (jmax min_max_length : Nat)
    (s : ScanState) (i j : Nat) : Option ScanState := do
  let data_val ← data[i * jmax + j]?
  let fl ← neighborhoodFlags data jmax i j data_val
  if fl.1 then
    let extrema ← setChecked s.extrema (i * jmax + j) 1
    if s.maxima_length < min_max_length then
      let maxima_x ← setChecked s.maxima_x s.maxima_length i
      let maxima_y ← setChecked s.maxima_y s.maxima_length j
      pure { s with extrema := extrema, maxima_x := maxima_x,
                    maxima_y := maxima_y,
                    maxima_length := s.maxima_length + 1 }
    else
      pure { s with extrema := extrema }
  else if fl.2 then
    if s.min_index < min_max_length then
      let extrema ← setChecked s.extrema (i * jmax + j) (-1)
      let minima_x ← setChecked s.minima_x s.min_index i
      let minima_y ← setChecked s.minima_y s.min_index j
      pure { s with extrema := extrema, minima_x := minima_x,
                    minima_y := minima_y,
                    min_index := s.min_index + 1 }
    else
      pure s
  else
    pure s

/-- The scan run over an explicit list of cells (used to expose the
intermediate states of the run; `cextrema` itself instantiates it with the
row-major list of interior cells). -/
def cextremaOn (data : Array Int) (jmax min_max_length : Nat)
    (s : ScanState) (cells : List (Nat × Nat)) : Option ScanState :=
  cells.foldlM (fun s2 c => cellStep data jmax min_max_length s2 c.1 c.2) s

/-- The initial state built by `cextrema`: the caller's buffers, both count
out-parameters set to 0 (lines `maxima_length = 0; minima_length = 0;`), and
the indeterminate initial value of the undeclared `min_index`. -/
def initState (extrema : Array Int) (maxima_x maxima_y minima_x minima_y : Array Nat)
    (min_index₀ : Nat) : ScanState :=
  { extrema := extrema, maxima_x := maxima_x, maxima_y := maxima_y,
    minima_x := minima_x, minima_y := minima_y,
    maxima_length := 0, minima_length := 0, min_index := min_index₀ }

/-- The `cextrema` routine: the double loop
`for (i = 1; i < imax - 1; ++i) for (j = 1; j < jmax - 1; ++j)` over the
interior cells, in row-major order. -/
def cextrema (data : Array Int) (imax jmax : Nat) (extrema : Array Int)
    (min_max_length : Nat)
    (maxima_x maxima_y minima_x minima_y : Array Nat)
    (min_index₀ : Nat) : Option ScanState :=
  (List.range' 1 (imax - 1 - 1)).foldlM (fun s i =>
    (List.range' 1 (jmax - 1 - 1)).foldlM (fun s2 j =>
      cellStep data jmax min_max_length s2 i j) s)
    (initState extrema maxima_x maxima_y minima_x minima_y min_index₀)

/-! ## Specification-level (pure) description of the scan -/

/-- The interior of the grid: cells with a full 3×3 neighborhood, exactly the
cells visited by the double loop. -/
def Interior (imax jmax i j : Nat) : Prop :=
  1 ≤ i ∧ i < imax - 1 ∧ 1 ≤ j ∧ j < jmax - 1

instance (imax jmax i j : Nat) : Decidable (Interior imax jmax i j) := by
  unfold Interior; infer_instance

/-- The row-major list of interior cells visited by the double loop. -/
def interiorCells (imax jmax : Nat) : List (Nat × Nat) :=
  (List.range' 1 (imax - 1 - 1)).flatMap fun i =>
    (List.range' 1 (jmax - 1 - 1)).map fun j => (i, j)

/-- `is_max` for cell `(i, j)`: no cell of the 3×3 neighborhood holds a value
strictly greater than the center. -/
def is_max_spec (data : Array Int) (jmax i j : Nat) : Bool :=
  (List.range' (i - 1) 3).all fun a =>
    (List.range' (j - 1) 3).all fun b =>
      decide (data.getD (a * jmax + b) 0 ≤ data.getD (i * jmax + j) 0)

/-- `is_min` for cell `(i, j)`: no cell of the 3×3 neighborhood holds a value
strictly smaller than the center. -/
def is_min_spec (data : Array Int) (jmax i j : Nat) : Bool :=
  (List.range' (i - 1) 3).all fun a =>
    (List.range' (j - 1) 3).all fun b =>
      decide (data.getD (i * jmax + j) 0 ≤ data.getD (a * jmax + b) 0)

/-- Unchecked write (the two writes agree whenever the index is in bounds). -/
def setPure {α : Type} (a : Array α) (n : Nat) (v : α) : Array α :=
  if h : n < a.size then a.set ⟨n, h⟩ v else a

/-- Pure mirror of `cellStep`, used to state what the scan computes. -/
def cellPure (data : Array Int) (jmax min_max_length : Nat)
    (s : ScanState) (i j : Nat) : ScanState :=
  if is_max_spec data jmax i j then
    if s.maxima_length < min_max_length then
      { s with extrema := setPure s.extrema (i * jmax + j) 1,
               maxima_x := setPure s.maxima_x s.maxima_length i,
               maxima_y := setPure s.maxima_y s.maxima_length j,
               maxima_length := s.maxima_length + 1 }
    else { s with extrema := setPure s.extrema (i * jmax + j) 1 }
  else if is_min_spec data jmax i j then
    if s.min_index < min_max_length then
      { s with extrema := setPure s.extrema (i * jmax + j) (-1),
               minima_x := setPure s.minima_x s.min_index i,
               minima_y := setPure s.minima_y s.min_index j,
               min_index := s.min_index + 1 }
    else s
  else s

/-- Pure mirror of `cextremaOn`. -/
def cextremaPureOn (data : Array Int) (jmax min_max_length : Nat)
    (s : ScanState) (cells : List (Nat × Nat)) : ScanState :=
  cells.foldl (fun s2 c => cellPure data jmax min_max_length s2 c.1 c.2) s

/-! ## What the scan computes: spec-level description and run invariant -/

/-- The cells of `P` the scan classifies as maxima. -/
def maxCells (data : Array Int) (jmax : Nat) (P : List (Nat × Nat)) :
    List (Nat × Nat) :=
  P.filter fun c => is_max_spec data jmax c.1 c.2

/-- The cells of `P` the scan sends to the minima branch (`is_min` holds and
`is_max` does not). -/
def minCells (data : Array Int) (jmax : Nat) (P : List (Nat × Nat)) :
    List (Nat × Nat) :=
  P.filter fun c => !is_max_spec data jmax c.1 c.2 && is_min_spec data jmax c.1 c.2

/-- Position of the first occurrence of `c` in `L` (length of `L` when
absent). -/
def posIn : List (Nat × Nat) → (Nat × Nat) → Nat
  | [], _ => 0
  | a :: L, c => if a = c then 0 else posIn L c + 1

/-- The value of the extrema map at cell `(i, j)` after the cells of `P` have
been processed: `1` for a maximum (written unconditionally), `-1` for a
recorded minimum (written only while the minima index is below capacity),
otherwise the prior value `init`. -/
def mapSpec (data : Array Int) (jmax cap m0 : Nat) (P : List (Nat × Nat))
    (init : Int) (i j : Nat) : Int :=
  if (i, j) ∈ P then
    if is_max_spec data jmax i j then 1
    else if is_min_spec data jmax i j then
      if m0 + posIn (minCells data jmax P) (i, j) < cap then -1 else init
    else init
  else init


/-- Invariant of the scan: complete description of the state `s` reached from
the start state `s0` after processing the cells of `P`. -/
structure Inv (data : Array Int) (imax jmax cap : Nat) (s0 : ScanState)
    (P : List (Nat × Nat)) (s : ScanState) : Prop where
  size_extrema : s.extrema.size = s0.extrema.size
  size_mx : s.maxima_x.size = s0.maxima_x.size
  size_my : s.maxima_y.size = s0.maxima_y.size
  size_nx : s.minima_x.size = s0.minima_x.size
  size_ny : s.minima_y.size = s0.minima_y.size
  hml : s.maxima_length = min (maxCells data jmax P).length cap
  hnl : s.minima_length = s0.minima_length
  hmi : s.min_index = if s0.min_index < cap
    then min (s0.min_index + (minCells data jmax P).length) cap
    else s0.min_index
  hmx_lo : ∀ k, k < s.maxima_length →
    s.maxima_x.getD k 0 = ((maxCells data jmax P).getD k (0, 0)).1 ∧
    s.maxima_y.getD k 0 = ((maxCells data jmax P).getD k (0, 0)).2
  hmx_hi : ∀ k, s.maxima_length ≤ k →
    s.maxima_x.getD k 0 = s0.maxima_x.getD k 0 ∧
    s.maxima_y.getD k 0 = s0.maxima_y.getD k 0
  hnx_mid : ∀ k, s0.min_index ≤ k → k < s.min_index →
    s.minima_x.getD k 0 = ((minCells data jmax P).getD (k - s0.min_index) (0, 0)).1 ∧
    s.minima_y.getD k 0 = ((minCells data jmax P).getD (k - s0.min_index) (0, 0)).2
  hnx_out : ∀ k, k < s0.min_index ∨ s.min_index ≤ k →
    s.minima_x.getD k 0 = s0.minima_x.getD k 0 ∧
    s.minima_y.getD k 0 = s0.minima_y.getD k 0
  hmap : ∀ i j, i < imax → j < jmax →
    s.extrema.getD (i * jmax + j) 0 =
      mapSpec data jmax cap s0.min_index P
        (s0.extrema.getD (i * jmax + j) 0) i j


/-- All sizes of the caller buffers, as the scan needs them. -/
def SizesOk (imax jmax cap : Nat) (s : ScanState) : Prop :=
  s.extrema.size = imax * jmax ∧ s.maxima_x.size = cap ∧ s.maxima_y.size = cap ∧
  s.minima_x.size = cap ∧ s.minima_y.size = cap


/-- The maxima coordinate pairs recorded by a run: entries `0 ≤ k <
maxima_length` of the two coordinate buffers. -/
def maximaPairs (s : ScanState) : List (Nat × Nat) :=
  (List.range s.maxima_length).map fun k => (s.maxima_x.getD k 0, s.maxima_y.getD k 0)

/-- The minima coordinate pairs recorded by a run started with minima index
0: entries `0 ≤ k < min_index` of the two coordinate buffers. -/
def minimaPairs (s : ScanState) : List (Nat × Nat) :=
  (List.range s.min_index).map fun k => (s.minima_x.getD k 0, s.minima_y.getD k 0)


/-- The failure codes of the scan contract. -/
inductive ScanError where
  | InvalidDimensions
  | NullOrMismatchedBuffer
  | InvalidCapacity
deriving DecidableEq, Repr

/-- A required buffer is absent, or a present buffer's declared size does not
match `rows × cols`. -/
def BufferBad (grid extrema_map : Option (Array Int)) (rows cols : Nat) : Prop :=
  match grid, extrema_map with
  | some g, some e => g.size ≠ rows * cols ∨ e.size ≠ rows * cols
  | _, _ => True

/-- Modelled from the spec: the validating entry point of the Extrema
Scanner (spec sections 4.1 and 7).  The C routine in `src/cextrema.c`
performs no validation at all — its `size_t` and raw-pointer signature can
express neither a negative capacity nor an error report — so the failure
semantics describe a contract layer that is not part of the source file.
Checks run in the order the spec lists them: dimensions, then buffers, then
capacity; when all pass, the core scan runs on zeroed outputs. -/
def scan (grid : Option (Array Int)) (rows cols : Nat)
    (extrema_map : Option (Array Int)) (capacity : Int) :
    Except ScanError ScanState :=
  if rows < 3 ∨ cols < 3 then .error .InvalidDimensions
  else
    match grid, extrema_map with
    | some g, some e =>
      if g.size ≠ rows * cols ∨ e.size ≠ rows * cols then
        .error .NullOrMismatchedBuffer
      else if capacity < 0 then .error .InvalidCapacity
      else .ok (cextremaPureOn g cols capacity.toNat
        (initState e (Array.mkArray capacity.toNat 0)
          (Array.mkArray capacity.toNat 0) (Array.mkArray capacity.toNat 0)
          (Array.mkArray capacity.toNat 0) 0)
        (interiorCells rows cols))
    | _, _ => .error .NullOrMismatchedBuffer

/-- 3×3 grid of zeros with a pit at the center. -/
def pitGrid : Array Int := #[0, 0, 0, 0, -1, 0, 0, 0, 0]

/-- Result of scanning a flat 3×3 grid with capacity 1 and zeroed outputs. -/
def flatRun3 : ScanState :=
  { extrema := #[0, 0, 0, 0, 1, 0, 0, 0, 0],
    maxima_x := #[1], maxima_y := #[1],
    minima_x := #[0], minima_y := #[0],
    maxima_length := 1, minima_length := 0, min_index := 0 }

/-- Result of scanning a flat 3×3 grid with capacity 0 and zeroed outputs:
the center is marked `+1` in the map but nothing is appended to the maxima
list. -/
def flatCap0Run : ScanState :=
  { extrema := #[0, 0, 0, 0, 1, 0, 0, 0, 0],
    maxima_x := #[], maxima_y := #[],
    minima_x := #[], minima_y := #[],
    maxima_length := 0, minima_length := 0, min_index := 0 }

/-- A 3×3 grid whose center cell is neither a maximum nor a minimum. -/
def saddleGrid : Array Int := #[2, 0, 0, 0, 1, 0, 0, -1, 0]

/-- Result of scanning `saddleGrid` over a map pre-filled with `7`:
nothing is classified, every map cell keeps its prior value. -/
def saddleRun : ScanState :=
  { extrema := #[7, 7, 7, 7, 7, 7, 7, 7, 7],
    maxima_x := #[0], maxima_y := #[0],
    minima_x := #[0], minima_y := #[0],
    maxima_length := 0, minima_length := 0, min_index := 0 }


/-! ## Generic fold and array lemmas -/

theorem foldlM_eq_some_foldl {σ α : Type} (Q : σ → Prop)
    (F : σ → α → Option σ) (f : σ → α → σ) (L : List α)
    (hQ : ∀ a ∈ L, ∀ s, Q s → F s a = some (f s a) ∧ Q (f s a)) :
    ∀ s, Q s → L.foldlM F s = some (L.foldl f s) := by
  induction L with
  | nil => intro s _; rfl
  | cons a L ih =>
    intro s hs
    have h1 := hQ a (List.mem_cons_self a L) s hs
    have : (a :: L).foldlM F s = F s a >>= fun s2 => L.foldlM F s2 := rfl
    rw [this, h1.1]
    simp only [Option.bind_eq_bind, Option.some_bind, List.foldl_cons]
    exact ih (fun b hb s2 hs2 => hQ b (List.mem_cons_of_mem a hb) s2 hs2) _ h1.2

theorem foldl_prod_fst {α : Type} (f g : Bool → α → Bool) (L : List α) :
    ∀ x y : Bool,
      (L.foldl (fun fl b => (f fl.1 b, g fl.2 b)) (x, y)).1 = L.foldl f x := by
  induction L with
  | nil => intro x y; rfl
  | cons a L ih => intro x y; simp only [List.foldl_cons]; exact ih _ _

theorem foldl_prod_snd {α : Type} (f g : Bool → α → Bool) (L : List α) :
    ∀ x y : Bool,
      (L.foldl (fun fl b => (f fl.1 b, g fl.2 b)) (x, y)).2 = L.foldl g y := by
  induction L with
  | nil => intro x y; rfl
  | cons a L ih => intro x y; simp only [List.foldl_cons]; exact ih _ _

theorem foldl_flag {α : Type} (p : α → Bool) (L : List α) :
    ∀ x : Bool, L.foldl (fun u b => if p b then false else u) x
      = (x && L.all fun b => !p b) := by
  induction L with
  | nil => intro x; simp
  | cons a L ih =>
    intro x
    simp only [List.foldl_cons, List.all_cons, ih]
    by_cases h : p a <;> simp [h]

theorem foldl_and {α : Type} (g : α → Bool) (L : List α) :
    ∀ x : Bool, L.foldl (fun u a => u && g a) x = (x && L.all g) := by
  induction L with
  | nil => intro x; simp
  | cons a L ih =>
    intro x
    simp only [List.foldl_cons, List.all_cons, ih, Bool.and_assoc]

theorem size_setPure {α : Type} (a : Array α) (n : Nat) (v : α) :
    (setPure a n v).size = a.size := by
  unfold setPure
  split <;> simp

theorem setChecked_eq_setPure {α : Type} (a : Array α) (n : Nat) (v : α)
    (h : n < a.size) : setChecked a n v = some (setPure a n v) := by
  unfold setChecked setPure
  simp only [dif_pos h]

theorem getElem?_eq_getD {α : Type} [Inhabited α] (a : Array α) (k : Nat)
    (h : k < a.size) (d : α) : a[k]? = some (a.getD k d) := by
  rw [Array.getElem?_eq_getElem h, Array.getD, dif_pos h]
  rfl

theorem getD_setPure_self {α : Type} (a : Array α) (n : Nat) (v d : α)
    (h : n < a.size) : (setPure a n v).getD n d = v := by
  unfold setPure
  rw [dif_pos h, Array.getD, dif_pos (by simpa using h)]
  simp [Array.getElem_set]

theorem getD_setPure_ne {α : Type} (a : Array α) (n m : Nat) (v d : α)
    (hnm : n ≠ m) : (setPure a n v).getD m d = a.getD m d := by
  unfold setPure
  split
  · rw [Array.getD, Array.getD]
    by_cases hm : m < a.size
    · rw [dif_pos (by simpa using hm), dif_pos hm]
      simp [Array.getElem_set, hnm]
    · rw [dif_neg (by simpa using hm), dif_neg hm]
  · rfl

theorem idx_lt {i j imax jmax : Nat} (hi : i < imax) (hj : j < jmax) :
    i * jmax + j < imax * jmax :=
  calc i * jmax + j < i * jmax + jmax := by omega
    _ = (i + 1) * jmax := by ring
    _ ≤ imax * jmax := Nat.mul_le_mul_right jmax hi

theorem idx_inj {i j i2 j2 jmax : Nat} (hj : j < jmax) (hj2 : j2 < jmax)
    (h : i * jmax + j = i2 * jmax + j2) : i = i2 ∧ j = j2 := by
  have hji : j = j2 := by
    have h1 : (i * jmax + j) % jmax = j := by
      rw [Nat.mul_comm, Nat.mul_add_mod, Nat.mod_eq_of_lt hj]
    have h2 : (i2 * jmax + j2) % jmax = j2 := by
      rw [Nat.mul_comm, Nat.mul_add_mod, Nat.mod_eq_of_lt hj2]
    rw [h, h2] at h1; omega
  subst hji
  have : i * jmax = i2 * jmax := by omega
  have hjpos : 0 < jmax := by omega
  exact ⟨Nat.eq_of_mul_eq_mul_right hjpos this, rfl⟩

theorem foldl_prod {α : Type} (f g : Bool → α → Bool) (L : List α) :
    ∀ x y : Bool,
      L.foldl (fun fl b => (f fl.1 b, g fl.2 b)) (x, y) = (L.foldl f x, L.foldl g y) := by
  induction L with
  | nil => intro x y; rfl
  | cons a L ih => intro x y; simp only [List.foldl_cons]; exact ih _ _

theorem if_gt_eq_and (v c : Int) (x : Bool) :
    (if v > c then false else x) = (x && decide (v ≤ c)) := by
  by_cases h : v > c
  · simp [h, not_le.mpr h]
  · simp [h, not_lt.mp h]

theorem if_lt_eq_and (v c : Int) (x : Bool) :
    (if v < c then false else x) = (x && decide (c ≤ v)) := by
  by_cases h : v < c
  · simp [h, not_le.mpr h]
  · simp [h, not_lt.mp h]

theorem neighborStep_eq (data : Array Int) (jmax : Nat) (c : Int)
    (fl : Bool × Bool) (a b : Nat) (h : a * jmax + b < data.size) :
    neighborStep data jmax c fl a b =
      some (fl.1 && decide (data.getD (a * jmax + b) 0 ≤ c),
            fl.2 && decide (c ≤ data.getD (a * jmax + b) 0)) := by
  unfold neighborStep
  rw [getElem?_eq_getD _ _ h]
  simp only [Option.bind_eq_bind, Option.some_bind, if_gt_eq_and, if_lt_eq_and]
  rfl

/-- The nested neighborhood loops compute exactly the pair
`(is_max_spec, is_min_spec)` when every neighborhood read is in bounds. -/
theorem neighborhoodFlags_eq (data : Array Int) (jmax i j : Nat)
    (h : ∀ a ∈ List.range' (i - 1) 3, ∀ b ∈ List.range' (j - 1) 3,
      a * jmax + b < data.size) :
    neighborhoodFlags data jmax i j (data.getD (i * jmax + j) 0) =
      some (is_max_spec data jmax i j, is_min_spec data jmax i j) := by
  set c := data.getD (i * jmax + j) 0 with hc
  have hrow : ∀ a ∈ List.range' (i - 1) 3, ∀ fl : Bool × Bool,
      (List.range' (j - 1) 3).foldlM
        (fun fl2 b => neighborStep data jmax c fl2 a b) fl =
      some ((List.range' (j - 1) 3).foldl
        (fun fl2 b => (fl2.1 && decide (data.getD (a * jmax + b) 0 ≤ c),
                       fl2.2 && decide (c ≤ data.getD (a * jmax + b) 0))) fl) := by
    intro a ha fl
    refine foldlM_eq_some_foldl (fun _ => True) _ _ _ (fun b hb fl2 _ => ?_) fl trivial
    exact ⟨neighborStep_eq data jmax c fl2 a b (h a ha b hb), trivial⟩
  have houter :
      neighborhoodFlags data jmax i j c =
      some ((List.range' (i - 1) 3).foldl
        (fun fl a => (List.range' (j - 1) 3).foldl
          (fun fl2 b => (fl2.1 && decide (data.getD (a * jmax + b) 0 ≤ c),
                         fl2.2 && decide (c ≤ data.getD (a * jmax + b) 0))) fl)
        (true, true)) := by
    unfold neighborhoodFlags
    exact foldlM_eq_some_foldl (fun _ => True) _ _ _
      (fun a ha fl _ => ⟨hrow a ha fl, trivial⟩) (true, true) trivial
  rw [houter]
  congr 1
  have hsplit : ∀ (a : Nat) (fl : Bool × Bool),
      (List.range' (j - 1) 3).foldl
        (fun fl2 b => (fl2.1 && decide (data.getD (a * jmax + b) 0 ≤ c),
                       fl2.2 && decide (c ≤ data.getD (a * jmax + b) 0))) fl =
      (fl.1 && (List.range' (j - 1) 3).all
          (fun b => decide (data.getD (a * jmax + b) 0 ≤ c)),
       fl.2 && (List.range' (j - 1) 3).all
          (fun b => decide (c ≤ data.getD (a * jmax + b) 0))) := by
    intro a fl
    rw [show fl = (fl.1, fl.2) from rfl]
    rw [foldl_prod (fun u b => u && decide (data.getD (a * jmax + b) 0 ≤ c))
        (fun u b => u && decide (c ≤ data.getD (a * jmax + b) 0))]
    rw [foldl_and, foldl_and]
  simp only [hsplit]
  rw [foldl_prod
      (fun u a => u && (List.range' (j - 1) 3).all
        (fun b => decide (data.getD (a * jmax + b) 0 ≤ c)))
      (fun u a => u && (List.range' (j - 1) 3).all
        (fun b => decide (c ≤ data.getD (a * jmax + b) 0)))]
  rw [foldl_and, foldl_and]
  unfold is_max_spec is_min_spec
  rw [← hc]
  simp

/-- One loop body refines its pure mirror: for an interior cell with
correctly sized buffers every access is in bounds and `cellStep` computes
`cellPure`. -/
theorem cellStep_eq (data : Array Int) (imax jmax cap : Nat) (s : ScanState)
    (i j : Nat) (hint : Interior imax jmax i j)
    (hdata : data.size = imax * jmax)
    (he : s.extrema.size = imax * jmax)
    (hmx : s.maxima_x.size = cap) (hmy : s.maxima_y.size = cap)
    (hnx : s.minima_x.size = cap) (hny : s.minima_y.size = cap) :
    cellStep data jmax cap s i j = some (cellPure data jmax cap s i j) := by
  obtain ⟨h1, h2, h3, h4⟩ := hint
  have hij : i * jmax + j < data.size := by
    rw [hdata]; exact idx_lt (by omega) (by omega)
  have hije : i * jmax + j < s.extrema.size := by
    rw [he]; exact idx_lt (by omega) (by omega)
  have hbnd : ∀ a ∈ List.range' (i - 1) 3, ∀ b ∈ List.range' (j - 1) 3,
      a * jmax + b < data.size := by
    intro a ha b hb
    rw [List.mem_range'_1] at ha hb
    rw [hdata]
    exact idx_lt (by omega) (by omega)
  unfold cellStep
  rw [getElem?_eq_getD _ _ hij 0]
  simp only [Option.bind_eq_bind, Option.some_bind]
  rw [neighborhoodFlags_eq data jmax i j hbnd]
  simp only [Option.some_bind]
  unfold cellPure
  by_cases hmax : is_max_spec data jmax i j
  · rw [if_pos hmax, if_pos hmax, setChecked_eq_setPure _ _ _ hije]
    simp only [Option.some_bind]
    by_cases hcap : s.maxima_length < cap
    · rw [if_pos hcap, if_pos hcap,
        setChecked_eq_setPure _ _ _ (by rw [hmx]; exact hcap),
        setChecked_eq_setPure _ _ _ (by rw [hmy]; exact hcap)]
      rfl
    · rw [if_neg hcap, if_neg hcap]
      rfl
  · rw [if_neg hmax, if_neg hmax]
    by_cases hmin : is_min_spec data jmax i j
    · rw [if_pos hmin, if_pos hmin]
      by_cases hcap : s.min_index < cap
      · rw [if_pos hcap, if_pos hcap, setChecked_eq_setPure _ _ _ hije,
          setChecked_eq_setPure _ _ _ (by rw [hnx]; exact hcap),
          setChecked_eq_setPure _ _ _ (by rw [hny]; exact hcap)]
        rfl
      · rw [if_neg hcap, if_neg hcap]; rfl
    · rw [if_neg hmin, if_neg hmin]; rfl

theorem foldlM_flatMap {σ α β : Type} (L : List α) (f : α → List β)
    (g : σ → β → Option σ) :
    ∀ s : σ, (L.flatMap f).foldlM g s
      = L.foldlM (fun s2 a => (f a).foldlM g s2) s := by
  induction L with
  | nil => intro s; rfl
  | cons a L ih =>
    intro s
    rw [List.flatMap_cons, List.foldlM_append, List.foldlM_cons]
    exact bind_congr fun s2 => ih s2

/-- The nested double loop of `cextrema` is the scan over the row-major
interior cell list. -/
theorem cextrema_eq_On (data : Array Int) (imax jmax : Nat) (e : Array Int)
    (cap : Nat) (mx my nx ny : Array Nat) (m0 : Nat) :
    cextrema data imax jmax e cap mx my nx ny m0 =
      cextremaOn data jmax cap (initState e mx my nx ny m0)
        (interiorCells imax jmax) := by
  unfold cextrema cextremaOn interiorCells
  rw [foldlM_flatMap]
  simp only [List.foldlM_map]

theorem sizesOk_cellPure (data : Array Int) (imax jmax cap : Nat)
    (s : ScanState) (i j : Nat) (h : SizesOk imax jmax cap s) :
    SizesOk imax jmax cap (cellPure data jmax cap s i j) := by
  obtain ⟨h1, h2, h3, h4, h5⟩ := h
  unfold cellPure SizesOk
  by_cases hmax : is_max_spec data jmax i j <;>
    by_cases hmin : is_min_spec data jmax i j <;>
      simp [hmax, hmin, size_setPure, h1, h2, h3, h4, h5] <;>
        split <;> simp [size_setPure, h1, h2, h3, h4, h5]

/-- Refinement of the monadic scan to its pure mirror over any list of
interior cells, given correctly sized buffers. -/
theorem cextremaOn_eq_pure (data : Array Int) (imax jmax cap : Nat)
    (s : ScanState) (cells : List (Nat × Nat))
    (hdata : data.size = imax * jmax)
    (hcells : ∀ c ∈ cells, Interior imax jmax c.1 c.2)
    (hs : SizesOk imax jmax cap s) :
    cextremaOn data jmax cap s cells
      = some (cextremaPureOn data jmax cap s cells) := by
  unfold cextremaOn cextremaPureOn
  refine foldlM_eq_some_foldl (SizesOk imax jmax cap) _ _ cells
    (fun c hc s2 hs2 => ?_) s hs
  obtain ⟨h1, h2, h3, h4, h5⟩ := hs2
  exact ⟨cellStep_eq data imax jmax cap s2 c.1 c.2 (hcells c hc) hdata h1 h2 h3 h4 h5,
    sizesOk_cellPure data imax jmax cap s2 c.1 c.2 ⟨h1, h2, h3, h4, h5⟩⟩

theorem mem_interiorCells {imax jmax i j : Nat} :
    (i, j) ∈ interiorCells imax jmax ↔ Interior imax jmax i j := by
  unfold interiorCells Interior
  simp only [List.mem_flatMap, List.mem_map, List.mem_range'_1, Prod.mk.injEq]
  constructor
  · rintro ⟨a, ⟨ha1, ha2⟩, b, ⟨hb1, hb2⟩, hab, hbb⟩
    subst hab; subst hbb
    omega
  · rintro ⟨h1, h2, h3, h4⟩
    exact ⟨i, ⟨h1, by omega⟩, j, ⟨h3, by omega⟩, rfl, rfl⟩

theorem nodup_interiorCells (imax jmax : Nat) :
    (interiorCells imax jmax).Nodup := by
  unfold interiorCells
  rw [List.nodup_flatMap]
  constructor
  · intro i _
    exact (List.nodup_range' _ _).map fun a b h => by
      simpa using congrArg Prod.snd h
  · refine (List.pairwise_lt_range' _ _ 1 (by simp)).imp ?_
    intro a b hab
    simp only [Function.onFun, List.disjoint_left]
    rintro ⟨x, y⟩ hx hy
    rw [List.mem_map] at hx hy
    obtain ⟨j1, _, hj1⟩ := hx
    obtain ⟨j2, _, hj2⟩ := hy
    have ha : a = x := by simpa using congrArg Prod.fst hj1
    have hb : b = x := by simpa using congrArg Prod.fst hj2
    omega

theorem list_getD_append_left {α : Type} {l1 l2 : List α} (n : Nat) (d : α)
    (h : n < l1.length) : (l1 ++ l2).getD n d = l1.getD n d := by
  rw [List.getD_eq_getElem?_getD, List.getD_eq_getElem?_getD,
    List.getElem?_append_left h]

theorem list_getD_concat_length {α : Type} (l : List α) (c d : α) :
    (l ++ [c]).getD l.length d = c := by
  rw [List.getD_eq_getElem?_getD, List.getElem?_append_right (Nat.le_refl _)]
  simp

theorem posIn_append_of_mem {l1 : List (Nat × Nat)} (l2 : List (Nat × Nat))
    {c : Nat × Nat} (h : c ∈ l1) : posIn (l1 ++ l2) c = posIn l1 c := by
  induction l1 with
  | nil => cases h
  | cons a l1 ih =>
    rw [List.cons_append]
    unfold posIn
    by_cases hac : a = c
    · rw [if_pos hac, if_pos hac]
    · rw [if_neg hac, if_neg hac,
        ih (by cases List.mem_cons.mp h with
          | inl h2 => exact absurd h2.symm hac
          | inr h2 => exact h2)]

theorem posIn_concat_self {l : List (Nat × Nat)} {c : Nat × Nat}
    (h : c ∉ l) : posIn (l ++ [c]) c = l.length := by
  induction l with
  | nil => simp [posIn]
  | cons a l ih =>
    rw [List.cons_append]
    unfold posIn
    rw [if_neg (fun hac : a = c => h (hac ▸ List.mem_cons_self a l)),
      ih (fun hc => h (List.mem_cons_of_mem a hc))]
    rfl

theorem posIn_lt_length {l : List (Nat × Nat)} {c : Nat × Nat} (h : c ∈ l) :
    posIn l c < l.length := by
  induction l with
  | nil => cases h
  | cons a l ih =>
    unfold posIn
    by_cases hac : a = c
    · rw [if_pos hac]; simp
    · rw [if_neg hac]
      have : c ∈ l := by
        cases List.mem_cons.mp h with
        | inl h2 => exact absurd h2.symm hac
        | inr h2 => exact h2
      simpa using ih this

theorem getD_posIn {l : List (Nat × Nat)} {c : Nat × Nat} (h : c ∈ l)
    (d : Nat × Nat) : l.getD (posIn l c) d = c := by
  induction l with
  | nil => cases h
  | cons a l ih =>
    unfold posIn
    by_cases hac : a = c
    · rw [if_pos hac]; simpa using hac
    · rw [if_neg hac]
      have hc : c ∈ l := by
        cases List.mem_cons.mp h with
        | inl h2 => exact absurd h2.symm hac
        | inr h2 => exact h2
      simpa using ih hc

theorem inv_base (data : Array Int) (imax jmax cap : Nat) (s0 : ScanState)
    (h0 : s0.maxima_length = 0) :
    Inv data imax jmax cap s0 [] s0 := by
  constructor <;>
    simp [maxCells, minCells, mapSpec, h0]
  · split <;> omega
  · omega

theorem maxCells_append_max (data : Array Int) (jmax : Nat)
    (P : List (Nat × Nat)) (i j : Nat) (h : is_max_spec data jmax i j) :
    maxCells data jmax (P ++ [(i, j)]) = maxCells data jmax P ++ [(i, j)] := by
  unfold maxCells
  rw [List.filter_append]
  simp [h]

theorem maxCells_append_other (data : Array Int) (jmax : Nat)
    (P : List (Nat × Nat)) (i j : Nat) (h : ¬ is_max_spec data jmax i j) :
    maxCells data jmax (P ++ [(i, j)]) = maxCells data jmax P := by
  unfold maxCells
  rw [List.filter_append]
  simp [h]

theorem minCells_append_min (data : Array Int) (jmax : Nat)
    (P : List (Nat × Nat)) (i j : Nat) (hmax : ¬ is_max_spec data jmax i j)
    (hmin : is_min_spec data jmax i j) :
    minCells data jmax (P ++ [(i, j)]) = minCells data jmax P ++ [(i, j)] := by
  unfold minCells
  rw [List.filter_append]
  simp [hmax, hmin]

theorem minCells_append_other (data : Array Int) (jmax : Nat)
    (P : List (Nat × Nat)) (i j : Nat)
    (h : ¬ (¬ is_max_spec data jmax i j ∧ is_min_spec data jmax i j)) :
    minCells data jmax (P ++ [(i, j)]) = minCells data jmax P := by
  unfold minCells
  rw [List.filter_append]
  by_cases hmax : is_max_spec data jmax i j
  · simp [hmax]
  · simp [hmax]
    simp [hmax] at h
    simp [h]

theorem mem_minCells (data : Array Int) (jmax : Nat) (P : List (Nat × Nat))
    (i j : Nat) (hP : (i, j) ∈ P) (hmax : ¬ is_max_spec data jmax i j)
    (hmin : is_min_spec data jmax i j) :
    (i, j) ∈ minCells data jmax P := by
  unfold minCells
  rw [List.mem_filter]
  exact ⟨hP, by simp [hmax, hmin]⟩

theorem not_mem_minCells (data : Array Int) (jmax : Nat) (P : List (Nat × Nat))
    (c : Nat × Nat) (hP : c ∉ P) : c ∉ minCells data jmax P := by
  unfold minCells
  intro h
  exact hP (List.mem_filter.mp h).1

/-- Appending a freshly processed distinct cell does not change the described
map value of any other cell. -/
theorem mapSpec_append_ne (data : Array Int) (jmax cap m0 : Nat)
    (P : List (Nat × Nat)) (init : Int) (i j i2 j2 : Nat)
    (hne : (i2, j2) ≠ (i, j)) :
    mapSpec data jmax cap m0 (P ++ [(i, j)]) init i2 j2
      = mapSpec data jmax cap m0 P init i2 j2 := by
  unfold mapSpec
  by_cases hP : (i2, j2) ∈ P
  · rw [if_pos (List.mem_append_left _ hP), if_pos hP]
    by_cases hmax : is_max_spec data jmax i2 j2
    · rw [if_pos hmax, if_pos hmax]
    · rw [if_neg hmax, if_neg hmax]
      by_cases hmin : is_min_spec data jmax i2 j2
      · rw [if_pos hmin, if_pos hmin]
        have hmem : (i2, j2) ∈ minCells data jmax P :=
          mem_minCells data jmax P i2 j2 hP hmax hmin
        have hsplit : minCells data jmax (P ++ [(i, j)])
            = minCells data jmax P ++ (List.filter
              (fun c => !is_max_spec data jmax c.1 c.2 &&
                is_min_spec data jmax c.1 c.2) [(i, j)]) := by
          unfold minCells
          rw [List.filter_append]
        rw [hsplit, posIn_append_of_mem _ hmem]
      · rw [if_neg hmin, if_neg hmin]
  · have hP2 : (i2, j2) ∉ P ++ [(i, j)] := by
      rw [List.mem_append]
      rintro (h | h)
      · exact hP h
      · exact hne (List.mem_singleton.mp h)
    rw [if_neg hP2, if_neg hP]

/-- Key preservation step: processing one fresh interior cell extends the run
description by that cell. -/
theorem inv_step (data : Array Int) (imax jmax cap : Nat) (s0 : ScanState)
    (P : List (Nat × Nat)) (s : ScanState) (i j : Nat)
    (hint : Interior imax jmax i j) (hnotin : (i, j) ∉ P)
    (he0 : s0.extrema.size = imax * jmax)
    (hmx0 : s0.maxima_x.size = cap) (hmy0 : s0.maxima_y.size = cap)
    (hnx0 : s0.minima_x.size = cap) (hny0 : s0.minima_y.size = cap)
    (hInv : Inv data imax jmax cap s0 P s) :
    Inv data imax jmax cap s0 (P ++ [(i, j)]) (cellPure data jmax cap s i j) := by
  obtain ⟨hS1, hS2, hS3, hS4, hS5, hml, hnl, hmi, hmx_lo, hmx_hi,
    hnx_mid, hnx_out, hmap⟩ := hInv
  obtain ⟨hb1, hb2, hb3, hb4⟩ := hint
  have himax : i < imax := by omega
  have hjmax : j < jmax := by omega
  have hidxe : i * jmax + j < s.extrema.size := by
    rw [hS1, he0]; exact idx_lt himax hjmax
  have hmemP : (i, j) ∈ P ++ [(i, j)] :=
    List.mem_append_right _ (List.mem_singleton.mpr rfl)
  have hmap_ne : ∀ (v : Int) (i2 j2 : Nat), i2 < imax → j2 < jmax →
      (i2, j2) ≠ (i, j) →
      (setPure s.extrema (i * jmax + j) v).getD (i2 * jmax + j2) 0
        = mapSpec data jmax cap s0.min_index (P ++ [(i, j)])
            (s0.extrema.getD (i2 * jmax + j2) 0) i2 j2 := by
    intro v i2 j2 hi2 hj2 hne
    have hidx : i * jmax + j ≠ i2 * jmax + j2 := fun heq => by
      obtain ⟨e1, e2⟩ := idx_inj hjmax hj2 heq
      exact hne (by rw [e1, e2])
    rw [getD_setPure_ne _ _ _ _ _ hidx, hmap i2 j2 hi2 hj2,
      mapSpec_append_ne data jmax cap s0.min_index P _ i j i2 j2 hne]
  have hmap_same : ∀ i2 j2 : Nat, i2 < imax → j2 < jmax → (i2, j2) ≠ (i, j) →
      s.extrema.getD (i2 * jmax + j2) 0
        = mapSpec data jmax cap s0.min_index (P ++ [(i, j)])
            (s0.extrema.getD (i2 * jmax + j2) 0) i2 j2 := by
    intro i2 j2 hi2 hj2 hne
    rw [hmap i2 j2 hi2 hj2,
      mapSpec_append_ne data jmax cap s0.min_index P _ i j i2 j2 hne]
  unfold cellPure
  by_cases hmax : is_max_spec data jmax i j
  · rw [if_pos hmax]
    have hMC := maxCells_append_max data jmax P i j hmax
    have hNC : minCells data jmax (P ++ [(i, j)]) = minCells data jmax P :=
      minCells_append_other data jmax P i j (fun h => h.1 hmax)
    by_cases hcap : s.maxima_length < cap
    · rw [if_pos hcap]
      constructor
      all_goals dsimp only
      · rw [size_setPure]; exact hS1
      · rw [size_setPure]; exact hS2
      · rw [size_setPure]; exact hS3
      · exact hS4
      · exact hS5
      · rw [hMC, List.length_append, List.length_singleton]; omega
      · exact hnl
      · rw [hNC]; exact hmi
      · intro k hk
        by_cases hkml : k < s.maxima_length
        · have hne : s.maxima_length ≠ k := by omega
          rw [getD_setPure_ne _ _ _ _ _ hne, getD_setPure_ne _ _ _ _ _ hne,
            hMC, list_getD_append_left _ _ (by omega)]
          exact hmx_lo k hkml
        · have hkeq : k = s.maxima_length := by omega
          subst hkeq
          rw [getD_setPure_self _ _ _ _ (by rw [hS2, hmx0]; exact hcap),
            getD_setPure_self _ _ _ _ (by rw [hS3, hmy0]; exact hcap), hMC]
          have hlen : s.maxima_length = (maxCells data jmax P).length := by omega
          rw [hlen, list_getD_concat_length]
          exact ⟨rfl, rfl⟩
      · intro k hk
        have hne : s.maxima_length ≠ k := by omega
        rw [getD_setPure_ne _ _ _ _ _ hne, getD_setPure_ne _ _ _ _ _ hne]
        exact hmx_hi k (by omega)
      · intro k h1 h2
        rw [hNC]
        exact hnx_mid k h1 h2
      · intro k hk
        exact hnx_out k hk
      · intro i2 j2 hi2 hj2
        by_cases hc : (i2, j2) = (i, j)
        · rw [Prod.mk.injEq] at hc
          obtain ⟨e1, e2⟩ := hc
          subst e1; subst e2
          rw [getD_setPure_self _ _ _ _ hidxe]
          unfold mapSpec
          rw [if_pos hmemP, if_pos hmax]
        · exact hmap_ne 1 i2 j2 hi2 hj2 hc
    · rw [if_neg hcap]
      constructor
      all_goals dsimp only
      · rw [size_setPure]; exact hS1
      · exact hS2
      · exact hS3
      · exact hS4
      · exact hS5
      · rw [hMC, List.length_append, List.length_singleton]; omega
      · exact hnl
      · rw [hNC]; exact hmi
      · intro k hk
        rw [hMC, list_getD_append_left _ _ (by omega)]
        exact hmx_lo k hk
      · intro k hk
        exact hmx_hi k hk
      · intro k h1 h2
        rw [hNC]
        exact hnx_mid k h1 h2
      · intro k hk
        exact hnx_out k hk
      · intro i2 j2 hi2 hj2
        by_cases hc : (i2, j2) = (i, j)
        · rw [Prod.mk.injEq] at hc
          obtain ⟨e1, e2⟩ := hc
          subst e1; subst e2
          rw [getD_setPure_self _ _ _ _ hidxe]
          unfold mapSpec
          rw [if_pos hmemP, if_pos hmax]
        · exact hmap_ne 1 i2 j2 hi2 hj2 hc
  · rw [if_neg hmax]
    have hMC := maxCells_append_other data jmax P i j hmax
    by_cases hmin : is_min_spec data jmax i j
    · rw [if_pos hmin]
      have hNC := minCells_append_min data jmax P i j hmax hmin
      have hcnotin : (i, j) ∉ minCells data jmax P :=
        not_mem_minCells data jmax P (i, j) hnotin
      by_cases hcap : s.min_index < cap
      · rw [if_pos hcap]
        have h0 : s0.min_index < cap := by
          by_contra h0
          rw [if_neg h0] at hmi
          omega
        rw [if_pos h0] at hmi
        have hmi_eq : s.min_index
            = s0.min_index + (minCells data jmax P).length := by omega
        constructor
        all_goals dsimp only
        · rw [size_setPure]; exact hS1
        · exact hS2
        · exact hS3
        · rw [size_setPure]; exact hS4
        · rw [size_setPure]; exact hS5
        · rw [hMC]; exact hml
        · exact hnl
        · rw [hNC, List.length_append, List.length_singleton, if_pos h0]
          omega
        · intro k hk
          rw [hMC]
          exact hmx_lo k hk
        · intro k hk
          exact hmx_hi k hk
        · intro k h1 h2
          by_cases hkmi : k < s.min_index
          · have hne : s.min_index ≠ k := by omega
            rw [getD_setPure_ne _ _ _ _ _ hne, getD_setPure_ne _ _ _ _ _ hne,
              hNC, list_getD_append_left _ _ (by omega)]
            exact hnx_mid k h1 hkmi
          · have hkeq : k = s.min_index := by omega
            subst hkeq
            rw [getD_setPure_self _ _ _ _ (by rw [hS4, hnx0]; exact hcap),
              getD_setPure_self _ _ _ _ (by rw [hS5, hny0]; exact hcap), hNC]
            have hlen : s.min_index - s0.min_index
                = (minCells data jmax P).length := by omega
            rw [hlen, list_getD_concat_length]
            exact ⟨rfl, rfl⟩
        · intro k hk
          have hne : s.min_index ≠ k := by omega
          rw [getD_setPure_ne _ _ _ _ _ hne, getD_setPure_ne _ _ _ _ _ hne]
          exact hnx_out k (by omega)
        · intro i2 j2 hi2 hj2
          by_cases hc : (i2, j2) = (i, j)
          · rw [Prod.mk.injEq] at hc
            obtain ⟨e1, e2⟩ := hc
            subst e1; subst e2
            rw [getD_setPure_self _ _ _ _ hidxe]
            unfold mapSpec
            rw [if_pos hmemP, if_neg hmax, if_pos hmin, hNC,
              posIn_concat_self hcnotin, if_pos (by omega)]
          · exact hmap_ne (-1) i2 j2 hi2 hj2 hc
      · rw [if_neg hcap]
        have hge : cap ≤ s0.min_index + (minCells data jmax P).length := by
          by_cases h0 : s0.min_index < cap
          · rw [if_pos h0] at hmi; omega
          · omega
        constructor
        all_goals dsimp only
        · exact hS1
        · exact hS2
        · exact hS3
        · exact hS4
        · exact hS5
        · rw [hMC]; exact hml
        · exact hnl
        · rw [hNC, List.length_append, List.length_singleton]
          by_cases h0 : s0.min_index < cap
          · rw [if_pos h0]; rw [if_pos h0] at hmi; omega
          · rw [if_neg h0]; rw [if_neg h0] at hmi; exact hmi
        · intro k hk
          rw [hMC]
          exact hmx_lo k hk
        · intro k hk
          exact hmx_hi k hk
        · intro k h1 h2
          have hlt : k - s0.min_index < (minCells data jmax P).length := by
            by_cases h0 : s0.min_index < cap
            · rw [if_pos h0] at hmi; omega
            · rw [if_neg h0] at hmi; omega
          rw [hNC, list_getD_append_left _ _ hlt]
          exact hnx_mid k h1 h2
        · intro k hk
          exact hnx_out k hk
        · intro i2 j2 hi2 hj2
          by_cases hc : (i2, j2) = (i, j)
          · rw [Prod.mk.injEq] at hc
            obtain ⟨e1, e2⟩ := hc
            rw [e1, e2, hmap i j himax hjmax]
            unfold mapSpec
            rw [if_neg hnotin, if_pos hmemP, if_neg hmax, if_pos hmin, hNC,
              posIn_concat_self hcnotin, if_neg (by omega)]
          · exact hmap_same i2 j2 hi2 hj2 hc
    · rw [if_neg hmin]
      have hNC : minCells data jmax (P ++ [(i, j)]) = minCells data jmax P :=
        minCells_append_other data jmax P i j (fun h => hmin h.2)
      constructor
      all_goals dsimp only
      · exact hS1
      · exact hS2
      · exact hS3
      · exact hS4
      · exact hS5
      · rw [hMC]; exact hml
      · exact hnl
      · rw [hNC]; exact hmi
      · intro k hk
        rw [hMC]
        exact hmx_lo k hk
      · intro k hk
        exact hmx_hi k hk
      · intro k h1 h2
        rw [hNC]
        exact hnx_mid k h1 h2
      · intro k hk
        exact hnx_out k hk
      · intro i2 j2 hi2 hj2
        by_cases hc : (i2, j2) = (i, j)
        · rw [Prod.mk.injEq] at hc
          obtain ⟨e1, e2⟩ := hc
          rw [e1, e2, hmap i j himax hjmax]
          unfold mapSpec
          rw [if_neg hnotin, if_pos hmemP, if_neg hmax, if_neg hmin]
        · exact hmap_same i2 j2 hi2 hj2 hc

/-- The run description extends along any list of fresh interior cells. -/
theorem inv_fold (data : Array Int) (imax jmax cap : Nat) (s0 : ScanState)
    (he0 : s0.extrema.size = imax * jmax)
    (hmx0 : s0.maxima_x.size = cap) (hmy0 : s0.maxima_y.size = cap)
    (hnx0 : s0.minima_x.size = cap) (hny0 : s0.minima_y.size = cap) :
    ∀ (L P : List (Nat × Nat)) (s : ScanState),
      (∀ c ∈ L, Interior imax jmax c.1 c.2) →
      (∀ c ∈ L, c ∉ P) → L.Nodup →
      Inv data imax jmax cap s0 P s →
      Inv data imax jmax cap s0 (P ++ L)
        (cextremaPureOn data jmax cap s L) := by
  intro L
  induction L with
  | nil =>
    intro P s _ _ _ h
    simpa [cextremaPureOn] using h
  | cons c L ih =>
    intro P s hInt hFresh hNodup hInv
    have hstep := inv_step data imax jmax cap s0 P s c.1 c.2
      (hInt c (List.mem_cons_self c L)) (by
        have := hFresh c (List.mem_cons_self c L)
        simpa using this)
      he0 hmx0 hmy0 hnx0 hny0 hInv
    rw [List.nodup_cons] at hNodup
    have hrest := ih (P ++ [(c.1, c.2)])
      (cellPure data jmax cap s c.1 c.2)
      (fun d hd => hInt d (List.mem_cons_of_mem c hd))
      (fun d hd => by
        rw [List.mem_append]
        rintro (h | h)
        · exact hFresh d (List.mem_cons_of_mem c hd) h
        · rw [List.mem_singleton] at h
          rw [show (c.1, c.2) = c from rfl] at h
          exact hNodup.1 (h ▸ hd))
      hNodup.2 hstep
    have hshape : P ++ [(c.1, c.2)] ++ L = P ++ c :: L := by
      rw [List.append_assoc, List.singleton_append]
    rw [hshape] at hrest
    simpa [cextremaPureOn] using hrest

/-- Master lemma: with correctly sized buffers the scan succeeds and its
result is fully described by `Inv` over the row-major interior cell list. -/
theorem cextrema_run (data : Array Int) (imax jmax cap : Nat)
    (e0 : Array Int) (mx my nx ny : Array Nat) (m0 : Nat)
    (hdata : data.size = imax * jmax) (he0 : e0.size = imax * jmax)
    (hmx0 : mx.size = cap) (hmy0 : my.size = cap)
    (hnx0 : nx.size = cap) (hny0 : ny.size = cap) :
    cextrema data imax jmax e0 cap mx my nx ny m0
      = some (cextremaPureOn data jmax cap (initState e0 mx my nx ny m0)
          (interiorCells imax jmax))
    ∧ Inv data imax jmax cap (initState e0 mx my nx ny m0)
        (interiorCells imax jmax)
        (cextremaPureOn data jmax cap (initState e0 mx my nx ny m0)
          (interiorCells imax jmax)) := by
  constructor
  · rw [cextrema_eq_On]
    exact cextremaOn_eq_pure data imax jmax cap _ _ hdata
      (fun c hc => by
        have : (c.1, c.2) ∈ interiorCells imax jmax := by simpa using hc
        exact mem_interiorCells.mp this)
      ⟨he0, hmx0, hmy0, hnx0, hny0⟩
  · have h := inv_fold data imax jmax cap (initState e0 mx my nx ny m0)
      he0 hmx0 hmy0 hnx0 hny0 (interiorCells imax jmax) [] _
      (fun c hc => by
        have : (c.1, c.2) ∈ interiorCells imax jmax := by simpa using hc
        exact mem_interiorCells.mp this)
      (fun c _ h => by cases h) (nodup_interiorCells imax jmax)
      (inv_base data imax jmax cap _ rfl)
    simpa using h

theorem getD_mkArray {α : Type} (n k : Nat) (v d : α) (h : k < n) :
    (Array.mkArray n v).getD k d = v := by
  rw [Array.getD, dif_pos (by simpa using h)]
  simp

theorem is_max_spec_iff (data : Array Int) (jmax i j : Nat) (hi : 1 ≤ i)
    (hj : 1 ≤ j) :
    is_max_spec data jmax i j = true ↔
      ∀ a b : Nat, i - 1 ≤ a → a ≤ i + 1 → j - 1 ≤ b → b ≤ j + 1 →
        data.getD (a * jmax + b) 0 ≤ data.getD (i * jmax + j) 0 := by
  unfold is_max_spec
  simp only [List.all_eq_true, List.mem_range'_1, decide_eq_true_eq]
  constructor
  · intro h a b ha1 ha2 hb1 hb2
    exact h a ⟨ha1, by omega⟩ b ⟨hb1, by omega⟩
  · intro h a ha b hb
    exact h a b ha.1 (by omega) hb.1 (by omega)

theorem is_min_spec_iff (data : Array Int) (jmax i j : Nat) (hi : 1 ≤ i)
    (hj : 1 ≤ j) :
    is_min_spec data jmax i j = true ↔
      ∀ a b : Nat, i - 1 ≤ a → a ≤ i + 1 → j - 1 ≤ b → b ≤ j + 1 →
        data.getD (i * jmax + j) 0 ≤ data.getD (a * jmax + b) 0 := by
  unfold is_min_spec
  simp only [List.all_eq_true, List.mem_range'_1, decide_eq_true_eq]
  constructor
  · intro h a b ha1 ha2 hb1 hb2
    exact h a ⟨ha1, by omega⟩ b ⟨hb1, by omega⟩
  · intro h a ha b hb
    exact h a b ha.1 (by omega) hb.1 (by omega)

theorem mapSpec_eq_one_iff (data : Array Int) (jmax cap m0 : Nat)
    (P : List (Nat × Nat)) (init : Int) (i j : Nat) (hinit : init ≠ 1) :
    mapSpec data jmax cap m0 P init i j = 1 ↔
      (i, j) ∈ P ∧ is_max_spec data jmax i j := by
  unfold mapSpec
  by_cases hP : (i, j) ∈ P
  · rw [if_pos hP]
    by_cases hmax : is_max_spec data jmax i j
    · simp [hmax, hP]
    · rw [if_neg hmax]
      by_cases hmin : is_min_spec data jmax i j
      · rw [if_pos hmin]
        by_cases hrec : m0 + posIn (minCells data jmax P) (i, j) < cap
        · rw [if_pos hrec]
          constructor
          · intro h; cases h
          · intro h; exact absurd h.2 hmax
        · rw [if_neg hrec]
          constructor
          · intro h; exact absurd h hinit
          · intro h; exact absurd h.2 hmax
      · rw [if_neg hmin]
        constructor
        · intro h; exact absurd h hinit
        · intro h; exact absurd h.2 hmax
  · rw [if_neg hP]
    constructor
    · intro h; exact absurd h hinit
    · intro h; exact absurd h.1 hP

theorem mapSpec_eq_negone_iff (data : Array Int) (jmax cap m0 : Nat)
    (P : List (Nat × Nat)) (init : Int) (i j : Nat) (hinit : init ≠ -1) :
    mapSpec data jmax cap m0 P init i j = -1 ↔
      (i, j) ∈ P ∧ ¬ is_max_spec data jmax i j ∧ is_min_spec data jmax i j ∧
        m0 + posIn (minCells data jmax P) (i, j) < cap := by
  unfold mapSpec
  by_cases hP : (i, j) ∈ P
  · rw [if_pos hP]
    by_cases hmax : is_max_spec data jmax i j
    · rw [if_pos hmax]
      constructor
      · intro h; cases h
      · intro h; exact absurd hmax h.2.1
    · rw [if_neg hmax]
      by_cases hmin : is_min_spec data jmax i j
      · rw [if_pos hmin]
        by_cases hrec : m0 + posIn (minCells data jmax P) (i, j) < cap
        · simp [hrec, hP, hmax, hmin]
        · rw [if_neg hrec]
          constructor
          · intro h; exact absurd h hinit
          · intro h; exact absurd h.2.2.2 hrec
      · rw [if_neg hmin]
        constructor
        · intro h; exact absurd h hinit
        · intro h; exact absurd h.2.2.1 hmin
  · rw [if_neg hP]
    constructor
    · intro h; exact absurd h hinit
    · intro h; exact absurd h.1 hP

theorem mapSpec_untouched (data : Array Int) (jmax cap m0 : Nat)
    (P : List (Nat × Nat)) (init : Int) (i j : Nat)
    (h : (i, j) ∉ P ∨ (¬ is_max_spec data jmax i j ∧ ¬ is_min_spec data jmax i j)) :
    mapSpec data jmax cap m0 P init i j = init := by
  unfold mapSpec
  by_cases hP : (i, j) ∈ P
  · rw [if_pos hP]
    rcases h with h | ⟨hmax, hmin⟩
    · exact absurd hP h
    · rw [if_neg hmax, if_neg hmin]
  · rw [if_neg hP]

/-- The possible counter transitions of one loop body, for any buffers:
either nothing moves, or the maxima counter increments under its capacity
guard, or the minima index increments under its capacity guard. -/
theorem cellStep_cases (data : Array Int) (jmax cap : Nat) (s : ScanState)
    (i j : Nat) (t : ScanState) (h : cellStep data jmax cap s i j = some t) :
    (t.maxima_length = s.maxima_length ∧ t.min_index = s.min_index) ∨
    (s.maxima_length < cap ∧ t.maxima_length = s.maxima_length + 1 ∧
      t.min_index = s.min_index) ∨
    (s.min_index < cap ∧ t.min_index = s.min_index + 1 ∧
      t.maxima_length = s.maxima_length) := by
  unfold cellStep at h
  cases hv : data[i * jmax + j]? with
  | none => rw [hv] at h; simp at h
  | some v =>
    rw [hv] at h
    simp only [Option.bind_eq_bind, Option.some_bind] at h
    cases hf : neighborhoodFlags data jmax i j v with
    | none => rw [hf] at h; simp at h
    | some fl =>
      rw [hf] at h
      simp only [Option.some_bind] at h
      by_cases h1 : fl.1
      · rw [if_pos h1] at h
        cases he : setChecked s.extrema (i * jmax + j) 1 with
        | none => rw [he] at h; simp at h
        | some e2 =>
          rw [he] at h
          simp only [Option.some_bind] at h
          by_cases hcap : s.maxima_length < cap
          · rw [if_pos hcap] at h
            cases hx : setChecked s.maxima_x s.maxima_length i with
            | none => rw [hx] at h; simp at h
            | some x2 =>
              rw [hx] at h
              simp only [Option.some_bind] at h
              cases hy : setChecked s.maxima_y s.maxima_length j with
              | none => rw [hy] at h; simp at h
              | some y2 =>
                rw [hy] at h
                simp only [Option.some_bind] at h
                cases Option.some.inj h
                exact Or.inr (Or.inl ⟨hcap, rfl, rfl⟩)
          · rw [if_neg hcap] at h
            cases Option.some.inj h
            exact Or.inl ⟨rfl, rfl⟩
      · rw [if_neg h1] at h
        by_cases h2 : fl.2
        · rw [if_pos h2] at h
          by_cases hcap : s.min_index < cap
          · rw [if_pos hcap] at h
            cases he : setChecked s.extrema (i * jmax + j) (-1) with
            | none => rw [he] at h; simp at h
            | some e2 =>
              rw [he] at h
              simp only [Option.some_bind] at h
              cases hx : setChecked s.minima_x s.min_index i with
              | none => rw [hx] at h; simp at h
              | some x2 =>
                rw [hx] at h
                simp only [Option.some_bind] at h
                cases hy : setChecked s.minima_y s.min_index j with
                | none => rw [hy] at h; simp at h
                | some y2 =>
                  rw [hy] at h
                  simp only [Option.some_bind] at h
                  cases Option.some.inj h
                  exact Or.inr (Or.inr ⟨hcap, rfl, rfl⟩)
          · rw [if_neg hcap] at h
            cases Option.some.inj h
            exact Or.inl ⟨rfl, rfl⟩
        · rw [if_neg h2] at h
          cases Option.some.inj h
          exact Or.inl ⟨rfl, rfl⟩

/-- Capacity bound along any successful run of the scan loop, with no
assumption at all on buffer sizes: counters only grow, and only below the
capacity. -/
theorem cextremaOn_counts (data : Array Int) (jmax cap : Nat) :
    ∀ (cells : List (Nat × Nat)) (s s2 : ScanState),
      cextremaOn data jmax cap s cells = some s2 →
      s.maxima_length ≤ s2.maxima_length ∧
      s2.maxima_length ≤ max s.maxima_length cap ∧
      s.min_index ≤ s2.min_index ∧
      s2.min_index ≤ max s.min_index cap := by
  intro cells
  induction cells with
  | nil =>
    intro s s2 h
    cases Option.some.inj h
    omega
  | cons c cells ih =>
    intro s s2 h
    unfold cextremaOn at h
    rw [List.foldlM_cons] at h
    cases ht : cellStep data jmax cap s c.1 c.2 with
    | none => rw [ht] at h; simp at h
    | some t =>
      rw [ht] at h
      simp only [Option.bind_eq_bind, Option.some_bind] at h
      have h2 := ih t s2 h
      have h1 := cellStep_cases data jmax cap s c.1 c.2 t ht
      omega

theorem foldlM_some_id {σ α : Type} (L : List α) :
    ∀ s : σ, L.foldlM (fun s2 _ => (some s2 : Option σ)) s = some s := by
  induction L with
  | nil => intro s; rfl
  | cons a L ih => intro s; rw [List.foldlM_cons]; exact ih s

theorem mem_take_iff_posIn (c : Nat × Nat) :
    ∀ (l : List (Nat × Nat)) (n : Nat),
      c ∈ l.take n ↔ c ∈ l ∧ posIn l c < n := by
  intro l
  induction l with
  | nil => intro n; simp
  | cons a l ih =>
    intro n
    cases n with
    | zero => simp
    | succ n =>
      rw [List.take_succ_cons]
      by_cases hac : a = c
      · subst hac
        simp [posIn]
      · simp only [List.mem_cons, ih, posIn, if_neg hac]
        constructor
        · rintro (h | ⟨h1, h2⟩)
          · exact absurd h.symm hac
          · exact ⟨Or.inr h1, by omega⟩
        · rintro ⟨h1 | h1, h2⟩
          · exact absurd h1.symm hac
          · exact Or.inr ⟨h1, by omega⟩

/-- From the run invariant with a zero initial minima index: the recorded
coordinate lists are the capacity-truncated prefixes of the classified
cells, in scan order. -/
theorem pairs_of_inv (data : Array Int) (imax jmax cap : Nat) (s0 : ScanState)
    (P : List (Nat × Nat)) (s : ScanState) (h : Inv data imax jmax cap s0 P s)
    (hm0 : s0.min_index = 0) :
    maximaPairs s = (maxCells data jmax P).take cap ∧
    minimaPairs s = (minCells data jmax P).take cap := by
  obtain ⟨_, _, _, _, _, hml, _, hmi, hmx_lo, _, hnx_mid, _, _⟩ := h
  rw [hm0] at hmi hnx_mid
  have hmi2 : s.min_index = min (minCells data jmax P).length cap := by
    by_cases h0 : 0 < cap
    · rw [if_pos h0] at hmi; omega
    · rw [if_neg h0] at hmi; omega
  constructor
  · apply List.ext_getElem
    · simp only [maximaPairs, List.length_map, List.length_range,
        List.length_take]
      omega
    · intro k hk1 hk2
      simp only [maximaPairs, List.length_map, List.length_range] at hk1
      simp only [maximaPairs, List.getElem_map, List.getElem_range]
      have hpair := hmx_lo k hk1
      have hklen : k < (maxCells data jmax P).length := by omega
      rw [hpair.1, hpair.2, List.getD_eq_getElem _ _ hklen,
        List.getElem_take]
  · apply List.ext_getElem
    · simp only [minimaPairs, List.length_map, List.length_range,
        List.length_take]
      omega
    · intro k hk1 hk2
      simp only [minimaPairs, List.length_map, List.length_range] at hk1
      simp only [minimaPairs, List.getElem_map, List.getElem_range]
      have hpair := hnx_mid k (Nat.zero_le k) hk1
      rw [Nat.sub_zero] at hpair
      have hklen : k < (minCells data jmax P).length := by omega
      rw [hpair.1, hpair.2, List.getD_eq_getElem _ _ hklen,
        List.getElem_take]

/-! ## The claims -/

/-- C1: for every grid with `rows, cols ≥ 3` and every interior cell
`(i, j)`, if the scan (run over a zeroed map) sets `extrema_map[i,j] = +1`
then no cell of the 3×3 neighborhood holds a value strictly greater than
`grid[i,j]`, and if it sets `-1` then no cell of the neighborhood holds a
value strictly smaller. -/
theorem claim_C1 (data : Array Int) (imax jmax cap : Nat)
    (mx my nx ny : Array Nat) (m0 : Nat) (s : ScanState)
    (h3i : 3 ≤ imax) (h3j : 3 ≤ jmax)
    (hdata : data.size = imax * jmax)
    (hmx : mx.size = cap) (hmy : my.size = cap)
    (hnx : nx.size = cap) (hny : ny.size = cap)
    (hrun : cextrema data imax jmax (Array.mkArray (imax * jmax) 0) cap
      mx my nx ny m0 = some s)
    (i j : Nat) (hint : Interior imax jmax i j) :
    (s.extrema.getD (i * jmax + j) 0 = 1 →
      ∀ a b : Nat, i - 1 ≤ a → a ≤ i + 1 → j - 1 ≤ b → b ≤ j + 1 →
        data.getD (a * jmax + b) 0 ≤ data.getD (i * jmax + j) 0) ∧
    (s.extrema.getD (i * jmax + j) 0 = -1 →
      ∀ a b : Nat, i - 1 ≤ a → a ≤ i + 1 → j - 1 ≤ b → b ≤ j + 1 →
        data.getD (i * jmax + j) 0 ≤ data.getD (a * jmax + b) 0) := by
  obtain ⟨hrun2, hInv⟩ := cextrema_run data imax jmax cap
    (Array.mkArray (imax * jmax) 0) mx my nx ny m0 hdata (by simp)
    hmx hmy hnx hny
  rw [hrun] at hrun2
  cases Option.some.inj hrun2
  obtain ⟨hb1, hb2, hb3, hb4⟩ := hint
  have hmap := hInv.hmap i j (by omega) (by omega)
  have hinit : (initState (Array.mkArray (imax * jmax) 0) mx my nx ny
      m0).extrema.getD (i * jmax + j) 0 = 0 :=
    getD_mkArray _ _ _ _ (idx_lt (by omega) (by omega))
  rw [hinit] at hmap
  constructor
  · intro h1
    rw [h1] at hmap
    have := (mapSpec_eq_one_iff data jmax cap _ _ 0 i j (by decide)).mp
      hmap.symm
    exact (is_max_spec_iff data jmax i j hb1 hb3).mp this.2
  · intro h1
    rw [h1] at hmap
    have := (mapSpec_eq_negone_iff data jmax cap _ _ 0 i j (by decide)).mp
      hmap.symm
    exact (is_min_spec_iff data jmax i j hb1 hb3).mp this.2.2.1

theorem claim_C1_witness :
    (Array.mkArray 9 (0 : Int)).getD 0 0 ≤ (Array.mkArray 9 (0 : Int)).getD 4 0 :=
  (claim_C1 (Array.mkArray 9 0) 3 3 1 (Array.mkArray 1 0) (Array.mkArray 1 0)
    (Array.mkArray 1 0) (Array.mkArray 1 0) 0 flatRun3
    (by decide) (by decide) (by decide) (by decide) (by decide) (by decide)
    (by decide) (by decide) 1 1 (by decide)).1 (by decide)
    0 0 (by decide) (by decide) (by decide) (by decide)

/-- C2 counterexample: on a flat 3×3 grid with capacity 0 and zeroed
outputs, the scan sets `extrema_map[1,1] = +1` yet appends nothing to the
maxima list — the map and the maxima list diverge once the list is at
capacity, refuting the claimed equivalence. -/
theorem claim_C2_cex :
    cextrema (Array.mkArray 9 0) 3 3 (Array.mkArray 9 0) 0 #[] #[] #[] #[] 0
      = some flatCap0Run ∧
    Interior 3 3 1 1 ∧
    flatCap0Run.extrema.getD (1 * 3 + 1) 0 = 1 ∧
    maximaPairs flatCap0Run = [] := by
  refine ⟨by decide, by decide, by decide, by decide⟩

/-- C2 amended: for a run over zeroed outputs, the minima list and the map
never diverge — a coordinate is appended to the minima list iff its map cell
is set to `-1` — while the maxima list is only the capacity-truncated prefix
of the cells whose map value is set to `+1`: each list equals `take capacity`
of its classified cells in scan order, and the map marks `+1` on every
maximum regardless of capacity. -/
theorem claim_C2 (data : Array Int) (imax jmax cap : Nat) (s : ScanState)
    (h3i : 3 ≤ imax) (h3j : 3 ≤ jmax)
    (hdata : data.size = imax * jmax)
    (hrun : cextrema data imax jmax (Array.mkArray (imax * jmax) 0) cap
      (Array.mkArray cap 0) (Array.mkArray cap 0) (Array.mkArray cap 0)
      (Array.mkArray cap 0) 0 = some s) :
    maximaPairs s = (maxCells data jmax (interiorCells imax jmax)).take cap ∧
    minimaPairs s = (minCells data jmax (interiorCells imax jmax)).take cap ∧
    ∀ i j, Interior imax jmax i j →
      ((s.extrema.getD (i * jmax + j) 0 = 1 ↔
        (i, j) ∈ maxCells data jmax (interiorCells imax jmax)) ∧
       (s.extrema.getD (i * jmax + j) 0 = -1 ↔
        (i, j) ∈ minimaPairs s)) := by
  obtain ⟨hrun2, hInv⟩ := cextrema_run data imax jmax cap
    (Array.mkArray (imax * jmax) 0) (Array.mkArray cap 0) (Array.mkArray cap 0)
    (Array.mkArray cap 0) (Array.mkArray cap 0) 0 hdata (by simp)
    (by simp) (by simp) (by simp) (by simp)
  rw [hrun] at hrun2
  cases Option.some.inj hrun2
  obtain ⟨hpairs1, hpairs2⟩ := pairs_of_inv data imax jmax cap _ _ _ hInv rfl
  refine ⟨hpairs1, hpairs2, ?_⟩
  intro i j hint
  obtain ⟨hb1, hb2, hb3, hb4⟩ := hint
  have hmap := hInv.hmap i j (by omega) (by omega)
  have hinit : (initState (Array.mkArray (imax * jmax) 0) (Array.mkArray cap 0)
      (Array.mkArray cap 0) (Array.mkArray cap 0) (Array.mkArray cap 0)
      0).extrema.getD (i * jmax + j) 0 = 0 :=
    getD_mkArray _ _ _ _ (idx_lt (by omega) (by omega))
  rw [hinit] at hmap
  have hm0 : (initState (Array.mkArray (imax * jmax) 0) (Array.mkArray cap 0)
      (Array.mkArray cap 0) (Array.mkArray cap 0) (Array.mkArray cap 0)
      0).min_index = 0 := rfl
  constructor
  · rw [hmap, mapSpec_eq_one_iff data jmax cap _ _ 0 i j (by decide)]
    unfold maxCells
    rw [List.mem_filter]
  · rw [hmap, mapSpec_eq_negone_iff data jmax cap _ _ 0 i j (by decide),
      hpairs2, mem_take_iff_posIn]
    unfold minCells
    rw [List.mem_filter, hm0]
    simp only [Nat.zero_add, Bool.and_eq_true, Bool.not_eq_true',
      Bool.not_eq_true]
    tauto

theorem claim_C2_witness :
    maximaPairs flatRun3
      = (maxCells (Array.mkArray 9 0) 3 (interiorCells 3 3)).take 1 :=
  (claim_C2 (Array.mkArray 9 0) 3 3 1 flatRun3 (by decide) (by decide)
    (by decide) (by decide)).1

/-- C3: the reported maxima count does equal the number of maxima pairs
written, but the reported minima count does not: on a 3×3 pit grid with
capacity 1 the scan writes the minima pair `(1,1)` at index 0 of the minima
buffers (through the undeclared index variable, modelled starting at 0) and
increments that variable to 1, yet reports `minima_length = 0` — the
out-parameter is initialised to 0 and never incremented in the source.  This
run evaluates the code at the failing input. -/
theorem claim_C3_bug :
    Option.map ScanState.minima_length (cextrema pitGrid 3 3
      (Array.mkArray 9 0) 1 (Array.mkArray 1 0) (Array.mkArray 1 0)
      (Array.mkArray 1 0) (Array.mkArray 1 0) 0) = some 0 ∧
    Option.map ScanState.min_index (cextrema pitGrid 3 3
      (Array.mkArray 9 0) 1 (Array.mkArray 1 0) (Array.mkArray 1 0)
      (Array.mkArray 1 0) (Array.mkArray 1 0) 0) = some 1 ∧
    Option.map ScanState.minima_x (cextrema pitGrid 3 3
      (Array.mkArray 9 0) 1 (Array.mkArray 1 0) (Array.mkArray 1 0)
      (Array.mkArray 1 0) (Array.mkArray 1 0) 0) = some #[1] ∧
    Option.map ScanState.minima_y (cextrema pitGrid 3 3
      (Array.mkArray 9 0) 1 (Array.mkArray 1 0) (Array.mkArray 1 0)
      (Array.mkArray 1 0) (Array.mkArray 1 0) 0) = some #[1] := by
  refine ⟨by decide, by decide, by decide, by decide⟩

/-- C4: the spec-modelled validating entry point fails with
`InvalidDimensions` when `rows < 3` or `cols < 3`; with dimensions valid it
fails with `NullOrMismatchedBuffer` when a required buffer is absent or
missized; with dimensions and buffers valid it fails with `InvalidCapacity`
when the capacity is negative.  In each case an error is returned, so no
output is produced. -/
theorem claim_C4 (grid : Option (Array Int)) (rows cols : Nat)
    (extrema_map : Option (Array Int)) (capacity : Int) :
    ((rows < 3 ∨ cols < 3) →
      scan grid rows cols extrema_map capacity
        = .error .InvalidDimensions) ∧
    (3 ≤ rows → 3 ≤ cols → BufferBad grid extrema_map rows cols →
      scan grid rows cols extrema_map capacity
        = .error .NullOrMismatchedBuffer) ∧
    (3 ≤ rows → 3 ≤ cols → ¬ BufferBad grid extrema_map rows cols →
      capacity < 0 →
      scan grid rows cols extrema_map capacity
        = .error .InvalidCapacity) := by
  refine ⟨?_, ?_, ?_⟩
  · intro h
    unfold scan
    rw [if_pos h]
  · intro h1 h2 hbad
    unfold scan
    rw [if_neg (by omega)]
    cases grid with
    | none => rfl
    | some g =>
      cases extrema_map with
      | none => rfl
      | some e =>
        unfold BufferBad at hbad
        dsimp only at hbad ⊢
        rw [if_pos hbad]
  · intro h1 h2 hbad hcap
    unfold scan
    rw [if_neg (by omega)]
    cases grid with
    | none => exact absurd trivial hbad
    | some g =>
      cases extrema_map with
      | none => exact absurd trivial hbad
      | some e =>
        unfold BufferBad at hbad
        dsimp only at hbad ⊢
        rw [if_neg hbad, if_pos hcap]

theorem claim_C4_witness :
    scan none 2 5 none 0 = .error .InvalidDimensions ∧
    scan none 3 3 none 0 = .error .NullOrMismatchedBuffer ∧
    scan (some (Array.mkArray 9 0)) 3 3 (some (Array.mkArray 9 0)) (-1)
      = .error .InvalidCapacity :=
  ⟨(claim_C4 none 2 5 none 0).1 (by omega),
   (claim_C4 none 3 3 none 0).2.1 (by omega) (by omega) trivial,
   (claim_C4 (some (Array.mkArray 9 0)) 3 3 (some (Array.mkArray 9 0))
      (-1)).2.2 (by omega) (by omega) (by simp [BufferBad]) (by omega)⟩

/-- C5: a perfectly flat grid classifies every interior cell as a maximum
(`+1` in the map) and no cell as a minimum: since `is_max` holds on a flat
neighborhood, the maximum branch is taken and the minimum branch is never
reached, for any capacity. -/
theorem claim_C5 (v : Int) (imax jmax cap : Nat) (mx my nx ny : Array Nat)
    (m0 : Nat) (s : ScanState) (h3i : 3 ≤ imax) (h3j : 3 ≤ jmax)
    (hmx : mx.size = cap) (hmy : my.size = cap)
    (hnx : nx.size = cap) (hny : ny.size = cap)
    (hcap : (imax - 2) * (jmax - 2) ≤ cap)
    (hrun : cextrema (Array.mkArray (imax * jmax) v) imax jmax
      (Array.mkArray (imax * jmax) 0) cap mx my nx ny m0 = some s) :
    (∀ i j, Interior imax jmax i j → s.extrema.getD (i * jmax + j) 0 = 1) ∧
    (∀ i j, i < imax → j < jmax →
      s.extrema.getD (i * jmax + j) 0 ≠ -1) := by
  obtain ⟨hrun2, hInv⟩ := cextrema_run (Array.mkArray (imax * jmax) v)
    imax jmax cap (Array.mkArray (imax * jmax) 0) mx my nx ny m0
    (by simp) (by simp) hmx hmy hnx hny
  rw [hrun] at hrun2
  cases Option.some.inj hrun2
  have hflat : ∀ i j : Nat, Interior imax jmax i j →
      is_max_spec (Array.mkArray (imax * jmax) v) jmax i j = true := by
    intro i j hint
    obtain ⟨hb1, hb2, hb3, hb4⟩ := hint
    rw [is_max_spec_iff _ _ _ _ hb1 hb3]
    intro a b ha1 ha2 hc1 hc2
    have hab : a * jmax + b < imax * jmax := idx_lt (by omega) (by omega)
    have hij : i * jmax + j < imax * jmax := idx_lt (by omega) (by omega)
    rw [getD_mkArray _ _ _ _ hab, getD_mkArray _ _ _ _ hij]
  constructor
  · intro i j hint
    have hmem : (i, j) ∈ interiorCells imax jmax := mem_interiorCells.mpr hint
    obtain ⟨hb1, hb2, hb3, hb4⟩ := hint
    have hmap := hInv.hmap i j (by omega) (by omega)
    rw [hmap]
    unfold mapSpec
    rw [if_pos hmem, if_pos (hflat i j ⟨hb1, hb2, hb3, hb4⟩)]
  · intro i j hi hj hneg
    have hmap := hInv.hmap i j hi hj
    have hinit : (initState (Array.mkArray (imax * jmax) 0) mx my nx ny
        m0).extrema.getD (i * jmax + j) 0 = 0 :=
      getD_mkArray _ _ _ _ (idx_lt hi hj)
    rw [hinit, hneg] at hmap
    have h2 := (mapSpec_eq_negone_iff (Array.mkArray (imax * jmax) v) jmax cap
      _ _ 0 i j (by decide)).mp hmap.symm
    exact h2.2.1 (hflat i j (mem_interiorCells.mp h2.1))

theorem claim_C5_witness :
    flatRun3.extrema.getD (1 * 3 + 1) 0 = 1 :=
  (claim_C5 5 3 3 1 (Array.mkArray 1 0) (Array.mkArray 1 0)
    (Array.mkArray 1 0) (Array.mkArray 1 0) 0 flatRun3 (by decide) (by decide)
    (by decide) (by decide) (by decide) (by decide) (by decide)
    (by decide)).1 1 1 (by decide)

/-- C6: the scan never touches the extrema map outside the interior, and an
interior cell satisfying neither `is_max` nor `is_min` keeps its prior map
value — only classified interior cells are written. -/
theorem claim_C6 (data : Array Int) (imax jmax cap : Nat) (e0 : Array Int)
    (mx my nx ny : Array Nat) (m0 : Nat) (s : ScanState)
    (h3i : 3 ≤ imax) (h3j : 3 ≤ jmax)
    (hdata : data.size = imax * jmax) (he0 : e0.size = imax * jmax)
    (hmx : mx.size = cap) (hmy : my.size = cap)
    (hnx : nx.size = cap) (hny : ny.size = cap)
    (hrun : cextrema data imax jmax e0 cap mx my nx ny m0 = some s) :
    (∀ i j, i < imax → j < jmax → ¬ Interior imax jmax i j →
      s.extrema.getD (i * jmax + j) 0 = e0.getD (i * jmax + j) 0) ∧
    (∀ i j, Interior imax jmax i j → ¬ is_max_spec data jmax i j →
      ¬ is_min_spec data jmax i j →
      s.extrema.getD (i * jmax + j) 0 = e0.getD (i * jmax + j) 0) := by
  obtain ⟨hrun2, hInv⟩ := cextrema_run data imax jmax cap e0 mx my nx ny m0
    hdata he0 hmx hmy hnx hny
  rw [hrun] at hrun2
  cases Option.some.inj hrun2
  constructor
  · intro i j hi hj hnint
    have hmap := hInv.hmap i j hi hj
    rw [hmap, mapSpec_untouched _ _ _ _ _ _ _ _
      (Or.inl (fun hmem => hnint (mem_interiorCells.mp hmem)))]
    rfl
  · intro i j hint hnmax hnmin
    obtain ⟨hb1, hb2, hb3, hb4⟩ := hint
    have hmap := hInv.hmap i j (by omega) (by omega)
    rw [hmap, mapSpec_untouched _ _ _ _ _ _ _ _ (Or.inr ⟨hnmax, hnmin⟩)]
    rfl

theorem claim_C6_witness :
    saddleRun.extrema.getD (0 * 3 + 0) 0
        = (Array.mkArray 9 7).getD (0 * 3 + 0) 0 ∧
    saddleRun.extrema.getD (1 * 3 + 1) 0
        = (Array.mkArray 9 7).getD (1 * 3 + 1) 0 :=
  ⟨(claim_C6 saddleGrid 3 3 1 (Array.mkArray 9 7) (Array.mkArray 1 0)
      (Array.mkArray 1 0) (Array.mkArray 1 0) (Array.mkArray 1 0) 0 saddleRun
      (by decide) (by decide) (by decide) (by decide) (by decide) (by decide)
      (by decide) (by decide) (by decide)).1 0 0 (by decide) (by decide)
      (by decide),
   (claim_C6 saddleGrid 3 3 1 (Array.mkArray 9 7) (Array.mkArray 1 0)
      (Array.mkArray 1 0) (Array.mkArray 1 0) (Array.mkArray 1 0) 0 saddleRun
      (by decide) (by decide) (by decide) (by decide) (by decide) (by decide)
      (by decide) (by decide) (by decide)).2 1 1 (by decide) (by decide)
      (by decide)⟩

/-- C7: during and after any run of the scan loop from a fresh start state
(counters zeroed, minima index starting at `m0`), for any list of visited
cells, the number of maxima pairs written (`maxima_length`) and the number
of minima pairs written (`min_index - m0`) never exceed the capacity. -/
theorem claim_C7 (data : Array Int) (jmax cap : Nat) (e0 : Array Int)
    (mx my nx ny : Array Nat) (m0 : Nat) (cells : List (Nat × Nat))
    (s2 : ScanState)
    (hrun : cextremaOn data jmax cap (initState e0 mx my nx ny m0) cells
      = some s2) :
    s2.maxima_length ≤ cap ∧ s2.min_index - m0 ≤ cap := by
  have h := cextremaOn_counts data jmax cap cells
    (initState e0 mx my nx ny m0) s2 hrun
  have h0 : (initState e0 mx my nx ny m0).maxima_length = 0 := rfl
  have h1 : (initState e0 mx my nx ny m0).min_index = m0 := rfl
  rw [h0, h1] at h
  omega

theorem claim_C7_witness :
    flatRun3.maxima_length ≤ 1 ∧ flatRun3.min_index - 0 ≤ 1 :=
  claim_C7 (Array.mkArray 9 0) 3 1 (Array.mkArray 9 0) (Array.mkArray 1 0)
    (Array.mkArray 1 0) (Array.mkArray 1 0) (Array.mkArray 1 0) 0
    [(1, 1)] flatRun3 (by decide)

/-- C8: with `rows = 2` or `cols = 2` there is no interior, the double loop
body never runs, and the scan returns the start state unchanged: nothing is
written to the map and nothing is appended to either list, for any grid. -/
theorem claim_C8 (data : Array Int) (imax jmax cap : Nat) (e0 : Array Int)
    (mx my nx ny : Array Nat) (m0 : Nat) (h : imax = 2 ∨ jmax = 2) :
    cextrema data imax jmax e0 cap mx my nx ny m0
      = some (initState e0 mx my nx ny m0) := by
  rcases h with h | h
  · subst h
    rfl
  · subst h
    unfold cextrema
    exact foldlM_some_id _ _

theorem claim_C8_witness :
    cextrema #[1, 2, 3, 4] 2 2 (Array.mkArray 4 0) 1 (Array.mkArray 1 0)
        (Array.mkArray 1 0) (Array.mkArray 1 0) (Array.mkArray 1 0) 0
      = some (initState (Array.mkArray 4 0) (Array.mkArray 1 0)
          (Array.mkArray 1 0) (Array.mkArray 1 0) (Array.mkArray 1 0) 0) :=
  claim_C8 #[1, 2, 3, 4] 2 2 1 (Array.mkArray 4 0) (Array.mkArray 1 0)
    (Array.mkArray 1 0) (Array.mkArray 1 0) (Array.mkArray 1 0) 0
    (Or.inl rfl)

/-- C9: two runs of the scan on the same pit grid with identical freshly
zeroed outputs differ when the indeterminate initial value of the source's
undeclared minima index variable differs (0 in the first run, 1 in the
second): the first marks the pit `-1` and records it, the second does
nothing — determinism fails through the uninitialised variable, evaluating
the code at the failing input. -/
theorem claim_C9_bug :
    cextrema pitGrid 3 3 (Array.mkArray 9 0) 1 (Array.mkArray 1 0)
        (Array.mkArray 1 0) (Array.mkArray 1 0) (Array.mkArray 1 0) 0
      ≠ cextrema pitGrid 3 3 (Array.mkArray 9 0) 1 (Array.mkArray 1 0)
        (Array.mkArray 1 0) (Array.mkArray 1 0) (Array.mkArray 1 0) 1 := by
  decide

/-- C10: with buffers of the declared sizes (`imax × jmax` for the grid and
the map, `min_max_length` for the four list buffers), every checked array
access of the scan is in bounds: the scan never takes the `none` branch of
its Option-returning indexing and returns exactly its pure mirror. -/
theorem claim_C10 (data : Array Int) (imax jmax cap : Nat) (e0 : Array Int)
    (mx my nx ny : Array Nat) (m0 : Nat)
    (h3i : 3 ≤ imax) (h3j : 3 ≤ jmax)
    (hdata : data.size = imax * jmax) (he0 : e0.size = imax * jmax)
    (hmx : mx.size = cap) (hmy : my.size = cap)
    (hnx : nx.size = cap) (hny : ny.size = cap) :
    cextrema data imax jmax e0 cap mx my nx ny m0
      = some (cextremaPureOn data jmax cap (initState e0 mx my nx ny m0)
          (interiorCells imax jmax)) :=
  (cextrema_run data imax jmax cap e0 mx my nx ny m0 hdata he0
    hmx hmy hnx hny).1

theorem claim_C10_witness :
    cextrema pitGrid 3 3 (Array.mkArray 9 0) 1 (Array.mkArray 1 0)
        (Array.mkArray 1 0) (Array.mkArray 1 0) (Array.mkArray 1 0) 0
      = some (cextremaPureOn pitGrid 3 1
          (initState (Array.mkArray 9 0) (Array.mkArray 1 0)
            (Array.mkArray 1 0) (Array.mkArray 1 0) (Array.mkArray 1 0) 0)
          (interiorCells 3 3)) :=
  claim_C10 pitGrid 3 3 1 (Array.mkArray 9 0) (Array.mkArray 1 0)
    (Array.mkArray 1 0) (Array.mkArray 1 0) (Array.mkArray 1 0) 0
    (by decide) (by decide) (by decide) (by decide) (by decide) (by decide)
    (by decide) (by decide)

end Stormtracks
